import Mathlib

/-!
Verification development for the Yapi-MCP repository: a shallow embedding of
the project-metadata caching layer (`src/services/yapi/cache.ts`, the
`YapiMcpServer` orchestration, `maskApiKey` of `src/services/yapi.ts`) and of
the credential-table parsing specified for the missing `YApiService` source,
together with theorems settling the specification's claims about it.
-/

namespace YapiMcp

/-- Project metadata record, embedding the `ProjectInfo` interface of
`src/services/yapi/types` (the fields used by the cache layer). -/
structure ProjectInfo where
  id : String
  name : String
  desc : String
  group_id : Int
  uid : Int
  basepath : String
deriving Repr, DecidableEq

/-- A JS `Map<string, α>` as an association list in insertion order
(keys unique by the `Map` invariant). -/
abbrev JsMap (α : Type) := List (String × α)

/-- In-memory project map owned by `YApiService`. -/
abbrev ProjectMap := JsMap ProjectInfo

/-- `Map.set`: overwrite the value in place if the key is present
(keeping its position), otherwise append the new entry. -/
def jsSet {α : Type} (m : JsMap α) (k : String) (v : α) : JsMap α :=
  match m with
  | [] => [(k, v)]
  | (k', v') :: rest => if k' = k then (k, v) :: rest else (k', v') :: jsSet rest k v

/-- `Map.get`: the value of the first entry with the given key. -/
def jsGet {α : Type} (m : JsMap α) (k : String) : Option α :=
  match m with
  | [] => none
  | (k', v') :: rest => if k' = k then some v' else jsGet rest k

theorem jsGet_jsSet_same {α : Type} (m : JsMap α) (k : String) (v : α) :
    jsGet (jsSet m k v) k = some v := by
  induction m with
  | nil => simp [jsSet, jsGet]
  | cons hd tl ih =>
    obtain ⟨k', v'⟩ := hd
    by_cases h : k' = k
    · simp [jsSet, jsGet, h]
    · simp [jsSet, jsGet, h, ih]

theorem jsGet_jsSet_other {α : Type} (m : JsMap α) (k k' : String) (v : α)
    (h : k' ≠ k) : jsGet (jsSet m k v) k' = jsGet m k' := by
  have h' : k ≠ k' := Ne.symm h
  induction m with
  | nil => simp [jsSet, jsGet, h']
  | cons hd tl ih =>
    obtain ⟨k0, v0⟩ := hd
    by_cases h0 : k0 = k
    · subst h0
      simp [jsSet, jsGet, h']
    · by_cases h1 : k0 = k'
      · simp [jsSet, jsGet, h0, h1, h]
      · simp [jsSet, jsGet, h0, h1, ih]

theorem jsSet_keys {α : Type} (m : JsMap α) (k : String) (v : α) :
    (jsSet m k v).map Prod.fst =
      if k ∈ m.map Prod.fst then m.map Prod.fst else m.map Prod.fst ++ [k] := by
  induction m with
  | nil => simp [jsSet]
  | cons hd tl ih =>
    obtain ⟨k0, v0⟩ := hd
    by_cases h0 : k0 = k
    · simp [jsSet, h0]
    · have h0' : k ≠ k0 := Ne.symm h0
      simp only [jsSet, if_neg h0, List.map_cons, List.mem_cons]
      rw [ih]
      by_cases hk : k ∈ tl.map Prod.fst
      · simp [hk, h0']
      · simp [hk, h0']

theorem jsSet_keys_nodup {α : Type} (m : JsMap α) (k : String) (v : α)
    (h : (m.map Prod.fst).Nodup) : ((jsSet m k v).map Prod.fst).Nodup := by
  rw [jsSet_keys]
  by_cases hk : k ∈ m.map Prod.fst
  · simpa [hk] using h
  · rw [if_neg hk, List.nodup_append]
    refine ⟨h, List.nodup_singleton k, ?_⟩
    intro a ha hb
    simp only [List.mem_singleton] at hb
    exact hk (hb ▸ ha)

theorem jsSet_append_of_not_mem {α : Type} (m : JsMap α) (k : String) (v : α)
    (h : k ∉ m.map Prod.fst) : jsSet m k v = m ++ [(k, v)] := by
  induction m with
  | nil => simp [jsSet]
  | cons hd tl ih =>
    obtain ⟨k0, v0⟩ := hd
    simp only [List.map_cons, List.mem_cons] at h
    push_neg at h
    simp [jsSet, Ne.symm h.1, ih h.2]

/-- Folding `Map.set` over a list of entries, as done when rebuilding a map
from serialized entries (`Object.entries(...).forEach(([id, info]) => map.set(id, info))`). -/
def jsFromEntries {α : Type} (init : JsMap α) (l : List (String × α)) : JsMap α :=
  l.foldl (fun acc kv => jsSet acc kv.1 kv.2) init

/-- The value of the last entry with a given key, if any. -/
def lastEntry {α : Type} : List (String × α) → String → Option α
  | [], _ => none
  | (k, v) :: rest, pid =>
    match lastEntry rest pid with
    | some w => some w
    | none => if k = pid then some v else none

theorem jsGet_jsFromEntries {α : Type} (l : List (String × α)) (init : JsMap α)
    (pid : String) :
    jsGet (jsFromEntries init l) pid =
      match lastEntry l pid with
      | some w => some w
      | none => jsGet init pid := by
  induction l generalizing init with
  | nil => simp [jsFromEntries, lastEntry]
  | cons hd tl ih =>
    obtain ⟨k, v⟩ := hd
    show jsGet (jsFromEntries (jsSet init k v) tl) pid = _
    rw [ih]
    rcases hlast : lastEntry tl pid with _ | w
    · by_cases hk : k = pid
      · subst hk
        simp [lastEntry, hlast, jsGet_jsSet_same]
      · simp [lastEntry, hlast, hk, jsGet_jsSet_other init k pid v (fun hh => hk hh.symm)]
    · simp [lastEntry, hlast]

theorem jsFromEntries_keys_nodup {α : Type} (l : List (String × α)) (init : JsMap α)
    (h : (init.map Prod.fst).Nodup) : ((jsFromEntries init l).map Prod.fst).Nodup := by
  induction l generalizing init with
  | nil => simpa [jsFromEntries] using h
  | cons hd tl ih =>
    exact ih (jsSet init hd.1 hd.2) (jsSet_keys_nodup init hd.1 hd.2 h)

theorem jsFromEntries_of_disjoint {α : Type} (l : List (String × α)) (init : JsMap α)
    (hl : (l.map Prod.fst).Nodup)
    (hd : ∀ k ∈ l.map Prod.fst, k ∉ init.map Prod.fst) :
    jsFromEntries init l = init ++ l := by
  induction l generalizing init with
  | nil => simp [jsFromEntries]
  | cons hd0 tl ih =>
    obtain ⟨k, v⟩ := hd0
    simp only [List.map_cons, List.nodup_cons] at hl
    have hk : k ∉ init.map Prod.fst := hd k (by simp)
    show jsFromEntries (jsSet init k v) tl = _
    rw [jsSet_append_of_not_mem init k v hk]
    rw [ih (init ++ [(k, v)]) hl.2]
    · simp
    · intro k' hk'
      simp only [List.map_append, List.mem_append, List.map_cons] at *
      push_neg
      refine ⟨fun hmem => hd k' (by simp [hk']) (by simp [hmem]), ?_⟩
      intro hkk
      simp only [List.map_nil, List.mem_singleton] at hkk
      exact hl.1 (hkk ▸ hk')

/-- Rebuilding a map from the entries of a map (unique keys) is the identity. -/
theorem jsFromEntries_self {α : Type} (l : List (String × α))
    (hl : (l.map Prod.fst).Nodup) : jsFromEntries [] l = l := by
  simpa using jsFromEntries_of_disjoint l [] hl (by simp)

/-! ## PersistentCacheStore: `ProjectInfoCache` of `src/services/yapi/cache.ts` -/

/-- The serialized cache record `CacheData` (cache.ts lines 9-13):
`{version, timestamp, data}`. `timestamp` and `data` are `Option`s because a
JSON object parsed from disk may lack either field; the JS truthiness test
`!cacheData.timestamp` also rejects a literal `0`, which is why the validity
checks below treat `some 0` like a missing timestamp. -/
structure CacheData where
  version : Nat
  timestamp : Option Nat
  data : Option ProjectMap
deriving Repr, DecidableEq

/-- State of the durable cache file `.yapi-cache/project-info.json`:
the file is absent, reading/parsing it throws (unreadable bytes or corrupt
JSON encoding), or it parses to a value — `content none` models a parse
result that is JS-falsy (such as the file containing `null`), `content
(some c)` a parsed object. -/
inductive Storage where
  | missing : Storage
  | unreadable : Storage
  | content : Option CacheData → Storage
deriving Repr, DecidableEq

/-- `ProjectInfoCache.isCacheExpired` (cache.ts lines 87-123): a missing file,
an unreadable file (the catch-all returns true), a falsy parse result and a
falsy `timestamp` are all reported as expired; otherwise the cache is expired
exactly when `Date.now() > timestamp + cacheTTLMinutes * 60 * 1000`. -/
def isCacheExpired (ttlMinutes now : Nat) : Storage → Bool
  | .missing => true
  | .unreadable => true
  | .content none => true
  | .content (some c) =>
    match c.timestamp with
    | none => true
    | some ts =>
      if ts = 0 then true
      else decide (now > ts + ttlMinutes * 60 * 1000)

/-- `ProjectInfoCache.saveToCache` (cache.ts lines 55-81): converts the Map to
an object and overwrites the cache file with
`{version: 1, timestamp: Date.now(), data}`. The Map→object→JSON serialization
is modelled as carrying the entry list (a JS Map iterates unique keys). -/
def saveToCache (projectInfo : ProjectMap) (now : Nat) : Storage :=
  .content (some { version := 1, timestamp := some now, data := some projectInfo })

/-- `ProjectInfoCache.loadFromCache` (cache.ts lines 129-161): starts from an
empty Map; a missing file, a read/parse error (caught), an expired cache (per
`isCacheExpired`, which also rejects falsy timestamps) or a falsy `data` field
all leave the Map empty; otherwise every serialized entry is `set` into the
Map. The function is total: no storage state makes it throw. -/
def loadFromCache (ttlMinutes now : Nat) : Storage → ProjectMap
  | .missing => []
  | .unreadable => []
  | .content c =>
    if isCacheExpired ttlMinutes now (.content c) then []
    else
      match c with
      | some cd =>
        match cd.data with
        | some entries => jsFromEntries [] entries
        | none => []
      | none => []

/-- `ProjectInfoCache.clearCache` (cache.ts lines 40-49): deletes the cache
file when it exists; idempotent on an already-missing file. -/
def clearCache : Storage → Storage := fun _ => .missing

/-! ## The orchestration in `YapiMcpServer` (src/unnamed/part_004) -/

/-- Modelled from the spec: `YApiService.loadAllProjectInfo` — its source file
`src/services/yapi/api.ts` is not present under `src/`. Per spec section 4.4
and section 7: enumerate every projectId in the credential table; call
`getProjectInfo` for each independently; a failed fetch is recorded and
skipped and must not abort the remaining projects (batch-refresh errors never
propagate to the caller); each success is written into the in-memory project
map by whole-value assignment. `results` is the backend outcome oracle for
this run (`none` = that project's fetch failed). -/
def loadAllProjectInfo (creds : List String) (results : String → Option ProjectInfo)
    (mem : ProjectMap) : ProjectMap :=
  creds.foldl (fun acc pid =>
    match results pid with
    | some info => jsSet acc pid info
    | none => acc) mem

/-- `YapiMcpServer.asyncUpdateCache` (part_004 lines 82-102): awaits
`loadAllProjectInfo`, then unconditionally persists the in-memory project map
via `ProjectInfoCache.saveToCache` — there is no check on how many projects
succeeded before the save. (It then loads all category lists, which touches
neither the project map nor the snapshot and is modelled separately by
`refreshProjectCalls`.) Returns the in-memory project map and the durable
storage after the run. -/
def asyncUpdateCache (creds : List String) (results : String → Option ProjectInfo)
    (mem : ProjectMap) (now : Nat) : ProjectMap × Storage :=
  let mem' := loadAllProjectInfo creds results mem
  (mem', saveToCache mem' now)

/-- The backend `getProjectInfo` calls issued by one run of the refresh: one
per configured projectId, in credential-table order, regardless of outcome
(a failure is skipped only after its call was attempted). -/
def refreshProjectCalls (creds : List String) : List String := creds

/-- The combined backend-call log of two overlapping refresh runs. The body of
`asyncUpdateCache` (part_004 lines 82-102) is straight-line and consults no
in-flight marker — the `YapiMcpServer` class holds no such field — so a
second invocation arriving while a run is pending issues its full call
sequence again; any cooperative interleaving of the two runs performs this
multiset of calls. -/
def overlappingRefreshCalls (creds : List String) : List String :=
  refreshProjectCalls creds ++ refreshProjectCalls creds

/-- `YapiMcpServer.initializeCache` (part_004 lines 38-76), synchronous phase.
It decides from the durable snapshot alone: if the cache is expired, fire
`asyncUpdateCache` without awaiting it (`.catch` only logs); otherwise load
the snapshot into the in-memory map and fire `asyncUpdateCache` only when the
loaded map is empty. The returned `Nat` counts the `asyncUpdateCache`
invocations made. The catch-all at line 68 is unreachable — `isCacheExpired`
and `loadFromCache` handle their own errors internally and never throw. The
function consumes no backend results: initialization never waits on network
I/O. -/
def initializeCache (ttlMinutes now : Nat) (st : Storage) (mem : ProjectMap) :
    ProjectMap × Nat :=
  if isCacheExpired ttlMinutes now st then
    (mem, 1)
  else
    let cached := loadFromCache ttlMinutes now st
    if 0 < cached.length then
      (jsFromEntries mem cached, 0)
    else
      (mem, 1)

/-- Response shape of the `yapi_list_projects` tool handler (part_004 lines
438-475): a fixed no-projects message when the in-memory map is empty,
otherwise the listing built from the map's entries. -/
inductive ListProjectsResponse where
  | noProjects : ListProjectsResponse
  | projects : List (String × ProjectInfo) → ListProjectsResponse
deriving Repr, DecidableEq

/-- `yapi_list_projects` tool handler (part_004 lines 438-475): reads only the
in-memory project map; performs no backend call. -/
def listProjectsHandler (mem : ProjectMap) : ListProjectsResponse :=
  if mem.length = 0 then .noProjects else .projects mem

/-- Category metadata, embedding the `CategoryInfo` interface of
`src/services/yapi/types` (the fields the handler reads). -/
structure CategoryInfo where
  id : String
  name : String
  desc : String
  add_time : Nat
  up_time : Nat
deriving Repr, DecidableEq

/-- The in-memory category-list map of `YApiService`, keyed by projectId. -/
abbrev CategoryMap := JsMap (List CategoryInfo)

/-- Response shape of the `yapi_get_categories` tool handler. -/
inductive CategoriesResponse where
  | projectNotFound : String → CategoriesResponse
  | noCategories : String → String → CategoriesResponse
  | categories : String → List CategoryInfo → CategoriesResponse
deriving Repr, DecidableEq

/-- `yapi_get_categories` tool handler (part_004 lines 478-556): reads the
project info and the category list straight from the in-memory maps; a
missing project answers "project not found" and a missing or empty category
list answers "no categories", in both cases without any backend call. The
second component is the log of `getCategoryApis(projectId, catId)` backend
calls the handler makes — one per cached category in the success branch,
none in either miss branch. -/
def getCategoriesHandler (mem : ProjectMap) (cats : CategoryMap) (pid : String) :
    CategoriesResponse × List (String × String) :=
  match jsGet mem pid with
  | none => (.projectNotFound pid, [])
  | some info =>
    match jsGet cats pid with
    | none => (.noCategories info.name pid, [])
    | some [] => (.noCategories info.name pid, [])
    | some cl => (.categories info.name cl, cl.map (fun c => (pid, c.id)))

/-! ## `maskApiKey` (src/services/yapi.ts lines 91-94) -/

/-- `key.slice(-4)`: the last four characters of the string. -/
def sliceLast4 (key : String) : String :=
  String.mk (key.data.drop (key.data.length - 4))

/-- `maskApiKey` (src/services/yapi.ts lines 91-94): keys of length at most 4
map to the constant `"****"`; longer keys map to `"****"` followed by their
last four characters. -/
def maskApiKey (key : String) : String :=
  if key.length ≤ 4 then "****" else "****" ++ sliceLast4 key

/-! ## CredentialTable parsing (modelled from the spec) -/

/-- `raw.split(",")` on the character list: split at every comma; the empty
string yields one empty segment, like in JS. -/
def splitCommas : List Char → List (List Char)
  | [] => [[]]
  | c :: rest =>
    let r := splitCommas rest
    if c = ',' then [] :: r
    else
      match r with
      | h :: t => (c :: h) :: t
      | [] => [[c]]

/-- Split a segment at its first colon, if it has one. -/
def splitFirstColon : List Char → Option (List Char × List Char)
  | [] => none
  | c :: rest =>
    if c = ':' then some ([], rest)
    else
      match splitFirstColon rest with
      | some (a, b) => some (c :: a, b)
      | none => none

/-- Modelled from the spec: parsing one credential segment of the
`CredentialTable` (its source, `src/services/yapi/api.ts`, is not present
under `src/`). Spec section 4.1: a segment is `projectId:token`; a segment
with a missing `:` separator or an empty projectId is skipped with a warning
(returns `none`), never aborting the rest. -/
def parseCredSegment (seg : String) : Option (String × String) :=
  match splitFirstColon seg.data with
  | none => none
  | some (pidChars, tokChars) =>
    if pidChars = [] then none
    else some (String.mk pidChars, String.mk tokChars)

/-- Modelled from the spec: fold the credential segments into the table
(spec section 4.1): valid segments are inserted in order, so a repeated
projectId is overwritten by the later segment (last write wins); invalid
segments leave the table untouched. -/
def parseCredSegments (segs : List String) : JsMap String :=
  segs.foldl
    (fun acc seg =>
      match parseCredSegment seg with
      | some e => jsSet acc e.1 e.2
      | none => acc) []

/-- Modelled from the spec: `CredentialTable.parse` (spec section 4.1) — split
the raw configuration string at commas and fold the segments into the table. -/
def parseCredentials (raw : String) : JsMap String :=
  parseCredSegments ((splitCommas raw.data).map String.mk)

/-- The token of the last valid segment carrying the given projectId — the
reference reading of last-write-wins, stated independently of the fold. -/
def lastValidToken : List String → String → Option String
  | [], _ => none
  | seg :: rest, pid =>
    match lastValidToken rest pid with
    | some t => some t
    | none =>
      match parseCredSegment seg with
      | some (p, t) => if p = pid then some t else none
      | none => none

/-! ## Supporting lemmas -/

theorem jsGet_isSome_iff_mem {α : Type} (m : JsMap α) (k : String) :
    (jsGet m k).isSome ↔ k ∈ m.map Prod.fst := by
  induction m with
  | nil => simp [jsGet]
  | cons hd tl ih =>
    obtain ⟨k0, v0⟩ := hd
    by_cases h0 : k0 = k
    · simp [jsGet, h0]
    · simp [jsGet, h0, ih, Ne.symm h0]

theorem lastEntry_isSome_iff_mem {α : Type} (l : List (String × α)) (pid : String) :
    (lastEntry l pid).isSome ↔ pid ∈ l.map Prod.fst := by
  induction l with
  | nil => simp [lastEntry]
  | cons hd tl ih =>
    obtain ⟨k, v⟩ := hd
    rcases hr : lastEntry tl pid with _ | w
    · rw [hr] at ih
      have hmem : pid ∉ tl.map Prod.fst := fun hm => by simpa using ih.mpr hm
      by_cases hk : k = pid
      · simp [lastEntry, hr, hk]
      · simp [lastEntry, hr, hk, Ne.symm hk, hmem]
    · rw [hr] at ih
      simp [lastEntry, hr, ih.mp rfl]

theorem lastEntry_eq_jsGet_of_nodup {α : Type} (l : List (String × α)) (pid : String)
    (h : (l.map Prod.fst).Nodup) : lastEntry l pid = jsGet l pid := by
  induction l with
  | nil => simp [lastEntry, jsGet]
  | cons hd tl ih =>
    obtain ⟨k, v⟩ := hd
    simp only [List.map_cons, List.nodup_cons] at h
    rcases hr : lastEntry tl pid with _ | w
    · rw [hr] at ih
      by_cases hk : k = pid
      · simp [lastEntry, jsGet, hr, hk]
      · simp [lastEntry, jsGet, hr, hk, ← ih h.2]
    · have hmem : pid ∈ tl.map Prod.fst := (lastEntry_isSome_iff_mem tl pid).mp (by simp [hr])
      have hk : k ≠ pid := fun he => h.1 (he ▸ hmem)
      simp [lastEntry, jsGet, hr, hk, ← ih h.2]

theorem loadFromCache_keys_nodup (ttlMinutes now : Nat) (st : Storage) :
    ((loadFromCache ttlMinutes now st).map Prod.fst).Nodup := by
  rcases st with _ | _ | c
  · simp [loadFromCache]
  · simp [loadFromCache]
  · by_cases he : isCacheExpired ttlMinutes now (.content c)
    · simp [loadFromCache, he]
    · rcases c with _ | cd
      · simp [loadFromCache, he]
      · rcases hd : cd.data with _ | entries
        · simp [loadFromCache, he, hd]
        · simpa [loadFromCache, he, hd] using jsFromEntries_keys_nodup entries [] (by simp)

theorem loadAllProjectInfo_cons (c : String) (rest : List String)
    (results : String → Option ProjectInfo) (mem : ProjectMap) :
    loadAllProjectInfo (c :: rest) results mem =
      loadAllProjectInfo rest results
        (match results c with
         | some info => jsSet mem c info
         | none => mem) := by
  simp only [loadAllProjectInfo, List.foldl_cons]

theorem loadAllProjectInfo_not_mem (creds : List String)
    (results : String → Option ProjectInfo) (mem : ProjectMap) (pid : String)
    (h : pid ∉ creds) :
    jsGet (loadAllProjectInfo creds results mem) pid = jsGet mem pid := by
  induction creds generalizing mem with
  | nil => simp [loadAllProjectInfo]
  | cons c rest ih =>
    simp only [List.mem_cons] at h
    push_neg at h
    rw [loadAllProjectInfo_cons]
    rcases hres : results c with _ | info
    · exact ih _ h.2
    · rw [ih _ h.2]
      exact jsGet_jsSet_other mem c pid info h.1

theorem loadAllProjectInfo_mem (creds : List String)
    (results : String → Option ProjectInfo) (mem : ProjectMap) (pid : String)
    (h : pid ∈ creds) :
    jsGet (loadAllProjectInfo creds results mem) pid =
      match results pid with
      | some info => some info
      | none => jsGet mem pid := by
  induction creds generalizing mem with
  | nil => simp at h
  | cons c rest ih =>
    rw [loadAllProjectInfo_cons]
    by_cases hr : pid ∈ rest
    · rcases hres : results c with _ | info
      · exact ih _ hr
      · rw [ih _ hr]
        rcases hp : results pid with _ | j
        · have hcp : pid ≠ c := fun he => by rw [← he, hp] at hres; exact Option.noConfusion hres
          exact jsGet_jsSet_other mem c pid info hcp
        · rfl
    · have hc : c = pid := by
        rcases List.mem_cons.mp h with h1 | h1
        · exact h1.symm
        · exact absurd h1 hr
      subst hc
      rcases hres : results c with _ | info
      · exact loadAllProjectInfo_not_mem rest results mem c hr
      · exact (loadAllProjectInfo_not_mem rest results (jsSet mem c info) c hr).trans
          (jsGet_jsSet_same mem c info)

theorem loadAllProjectInfo_all_fail (creds : List String)
    (results : String → Option ProjectInfo) (mem : ProjectMap)
    (h : ∀ p ∈ creds, results p = none) :
    loadAllProjectInfo creds results mem = mem := by
  induction creds generalizing mem with
  | nil => rfl
  | cons c rest ih =>
    rw [loadAllProjectInfo_cons, h c (List.mem_cons_self c rest)]
    exact ih mem (fun p hp => h p (List.mem_cons_of_mem c hp))

/-- One step of the credential fold: insert a valid segment, skip an invalid
one (spec section 4.1). -/
def credStep (acc : JsMap String) (seg : String) : JsMap String :=
  match parseCredSegment seg with
  | some e => jsSet acc e.1 e.2
  | none => acc

theorem parseCredSegments_eq_foldl (segs : List String) :
    parseCredSegments segs = segs.foldl credStep [] := rfl

theorem credFold_jsGet (segs : List String) (acc : JsMap String) (pid : String) :
    jsGet (segs.foldl credStep acc) pid =
      match lastValidToken segs pid with
      | some t => some t
      | none => jsGet acc pid := by
  induction segs generalizing acc with
  | nil => simp [lastValidToken]
  | cons s rest ih =>
    show jsGet (rest.foldl credStep (credStep acc s)) pid = _
    rw [ih]
    rcases hlast : lastValidToken rest pid with _ | t
    · rcases hseg : parseCredSegment s with _ | e
      · simp [lastValidToken, hlast, hseg, credStep]
      · obtain ⟨p, t⟩ := e
        by_cases hp : p = pid
        · subst hp
          simp [lastValidToken, hlast, hseg, credStep, jsGet_jsSet_same]
        · simp [lastValidToken, hlast, hseg, credStep, hp,
            jsGet_jsSet_other acc p pid t (Ne.symm hp)]
    · simp [lastValidToken, hlast]

theorem credFold_keys_nodup (segs : List String) (acc : JsMap String)
    (h : (acc.map Prod.fst).Nodup) : ((segs.foldl credStep acc).map Prod.fst).Nodup := by
  induction segs generalizing acc with
  | nil => simpa using h
  | cons s rest ih =>
    refine ih (credStep acc s) ?_
    rcases hseg : parseCredSegment s with _ | e
    · simpa [credStep, hseg] using h
    · simpa [credStep, hseg] using jsSet_keys_nodup acc e.1 e.2 h

/-- A sample project record used to instantiate claims on concrete inputs. -/
def demoInfo : ProjectInfo :=
  { id := "10", name := "demo", desc := "", group_id := 1, uid := 1, basepath := "/" }

/-! ## Claims -/

/-- C3. `isCacheExpired` returns true whenever no (valid) snapshot exists —
file missing, unreadable, falsy parse, missing or falsy timestamp — and for a
snapshot with a real creation timestamp it returns true exactly when the
current time strictly exceeds `createdAt + ttlMinutes * 60000` milliseconds.
Concretely, with TTL = 360, a snapshot created 361 minutes ago is expired and
one created 359 minutes ago is not. -/
theorem isCacheExpired_ttl_spec (ttl now v : Nat) (ts : Nat) (d : Option ProjectMap)
    (h : ts ≠ 0) :
    isCacheExpired ttl now .missing = true ∧
    isCacheExpired ttl now .unreadable = true ∧
    isCacheExpired ttl now (.content none) = true ∧
    isCacheExpired ttl now (.content (some { version := v, timestamp := none, data := d }))
      = true ∧
    (isCacheExpired ttl now (.content (some { version := v, timestamp := some ts, data := d }))
        = true ↔ now > ts + ttl * 60000) ∧
    isCacheExpired 360 30000000
      (.content (some { version := 1, timestamp := some (30000000 - 361 * 60000),
                        data := some [] })) = true ∧
    isCacheExpired 360 30000000
      (.content (some { version := 1, timestamp := some (30000000 - 359 * 60000),
                        data := some [] })) = false := by
  refine ⟨rfl, rfl, rfl, rfl, ?_, by decide, by decide⟩
  simp only [isCacheExpired, h, if_false, decide_eq_true_eq]
  omega

/-- Witness for C3 at TTL 360, now 30000000, timestamp 8000000. -/
theorem isCacheExpired_ttl_spec_witness :
    (8000000 : Nat) ≠ 0 ∧
    (isCacheExpired 360 30000000
        (.content (some { version := 1, timestamp := some 8000000, data := some [] }))
        = true ↔ 30000000 > 8000000 + 360 * 60000) :=
  ⟨by decide, (isCacheExpired_ttl_spec 360 30000000 1 8000000 (some []) (by decide)).2.2.2.2.1⟩

/-- C10. `loadFromCache` itself enforces the TTL: whenever `isCacheExpired`
holds at load time — in particular when a stored snapshot exists but is
expired — the load returns the empty map rather than the snapshot's data, so
loaded data is never older than the configured TTL. -/
theorem loadFromCache_enforces_ttl (ttl now : Nat) (st : Storage)
    (h : isCacheExpired ttl now st = true) :
    loadFromCache ttl now st = [] := by
  rcases st with _ | _ | c
  · rfl
  · rfl
  · simp [loadFromCache, h]

/-- Witness for C10 on an existing but expired snapshot. -/
theorem loadFromCache_enforces_ttl_witness :
    isCacheExpired 360 30000000
        (.content (some { version := 1, timestamp := some 100, data := some [("10", demoInfo)] }))
      = true ∧
    loadFromCache 360 30000000
        (.content (some { version := 1, timestamp := some 100, data := some [("10", demoInfo)] }))
      = [] :=
  ⟨by decide,
    loadFromCache_enforces_ttl 360 30000000
      (.content (some { version := 1, timestamp := some 100, data := some [("10", demoInfo)] }))
      (by decide)⟩

/-- C4 counterexample. The claim says a snapshot carrying a schema version
different from the current one (the code always writes version 1) is treated
as absent data. It is not: `loadFromCache` never reads the `version` field,
so a fresh version-2 snapshot is loaded in full, not returned as empty. -/
theorem loadFromCache_schema_version_counterexample :
    loadFromCache 360 2000
        (.content (some { version := 2, timestamp := some 1000, data := some [("10", demoInfo)] }))
      = [("10", demoInfo)] ∧
    loadFromCache 360 2000
        (.content (some { version := 2, timestamp := some 1000, data := some [("10", demoInfo)] }))
      ≠ [] := by
  constructor
  · decide
  · decide

/-- C4 amended. `loadFromCache` returns the empty map — and never throws, the
embedding being total — when storage is missing, unreadable, corruptly
encoded (falsy parse), or missing its timestamp; but the snapshot's schema
version is not validated: the result is invariant under changing the
`version` field, so a mismatched version is loaded normally rather than being
treated as absent. -/
theorem loadFromCache_absent_amended (ttl now v v' : Nat) (ts tsAny : Option Nat)
    (d : Option ProjectMap) (h : ts = none ∨ ts = some 0) :
    loadFromCache ttl now .missing = [] ∧
    loadFromCache ttl now .unreadable = [] ∧
    loadFromCache ttl now (.content none) = [] ∧
    loadFromCache ttl now (.content (some { version := v, timestamp := ts, data := d })) = [] ∧
    loadFromCache ttl now (.content (some { version := v, timestamp := tsAny, data := d })) =
      loadFromCache ttl now (.content (some { version := v', timestamp := tsAny, data := d })) := by
  refine ⟨rfl, rfl, rfl, ?_, ?_⟩
  · rcases h with h | h <;> subst h <;> simp [loadFromCache, isCacheExpired]
  · rcases tsAny with _ | ts0
    · rfl
    · by_cases h0 : ts0 = 0
      · subst h0
        rfl
      · simp only [loadFromCache, isCacheExpired, h0, if_false]

/-- Witness for C4 amended with a timestamp-less snapshot. -/
theorem loadFromCache_absent_amended_witness :
    ((none : Option Nat) = none ∨ (none : Option Nat) = some 0) ∧
    loadFromCache 360 2000
        (.content (some { version := 1, timestamp := none, data := some [("10", demoInfo)] }))
      = [] :=
  ⟨Or.inl rfl,
    (loadFromCache_absent_amended 360 2000 1 2 none (some 5)
      (some [("10", demoInfo)]) (Or.inl rfl)).2.2.2.1⟩

/-- C5. Round-trip law: saving a non-empty project map (with the unique keys
a JS Map guarantees, at a nonzero wall-clock time) and loading it again while
the snapshot is within its TTL returns exactly the same map. -/
theorem save_load_roundtrip (X : ProjectMap) (ttl tsave tload : Nat)
    (_hX : X ≠ []) (hkeys : (X.map Prod.fst).Nodup) (hpos : 0 < tsave)
    (httl : tload ≤ tsave + ttl * 60000) :
    loadFromCache ttl tload (saveToCache X tsave) = X := by
  have hts : tsave ≠ 0 := by omega
  have hexp : isCacheExpired ttl tload (saveToCache X tsave) = false := by
    simp only [saveToCache, isCacheExpired, hts, if_false, decide_eq_false_iff_not]
    omega
  simp only [saveToCache] at hexp ⊢
  simp only [loadFromCache, hexp, Bool.false_eq_true, if_false]
  exact jsFromEntries_self X hkeys

/-- Witness for C5 on a two-project map. -/
theorem save_load_roundtrip_witness :
    ([("10", demoInfo), ("20", demoInfo)] : ProjectMap) ≠ [] ∧
    loadFromCache 360 2000 (saveToCache [("10", demoInfo), ("20", demoInfo)] 1000)
      = [("10", demoInfo), ("20", demoInfo)] :=
  ⟨by decide,
    save_load_roundtrip [("10", demoInfo), ("20", demoInfo)] 360 1000 2000
      (by decide) (by decide) (by decide) (by decide)⟩

/-- C9. The logged form of a credential token reveals at most its trailing
four characters: tokens of length at most 4 mask to the constant `"****"`,
and the masked output of any longer token depends only on its last four
characters — two long tokens agreeing on their tail mask identically. -/
theorem maskApiKey_masks_spec (key k1 k2 : String)
    (h : key.length ≤ 4) (h1 : 4 < k1.length) (h2 : 4 < k2.length)
    (h3 : sliceLast4 k1 = sliceLast4 k2) :
    maskApiKey key = "****" ∧ maskApiKey k1 = maskApiKey k2 := by
  constructor
  · simp [maskApiKey, h]
  · simp only [maskApiKey, if_neg (Nat.not_le.mpr h1), if_neg (Nat.not_le.mpr h2), h3]

/-- Witness for C9: a short token, and two long tokens sharing a tail. -/
theorem maskApiKey_masks_spec_witness :
    ("ab" : String).length ≤ 4 ∧
    maskApiKey "ab" = "****" ∧ maskApiKey "toktail1" = maskApiKey "xail1" :=
  ⟨by decide,
    (maskApiKey_masks_spec "ab" "toktail1" "xail1" (by decide) (by decide) (by decide)
      (by decide)).1,
    (maskApiKey_masks_spec "ab" "toktail1" "xail1" (by decide) (by decide) (by decide)
      (by decide)).2⟩

/-- C1 counterexample. A refresh in which every configured project fails:
with previous snapshot written at time 500, running `asyncUpdateCache` at
time 1000 leaves the in-memory map unchanged — but still persists, replacing
the durable snapshot with a re-save of the unchanged map at the new
timestamp. The claim's "persisted only if N ≥ 1, all-fail leaves the durable
snapshot unchanged" is false of the code: the save after `loadAllProjectInfo`
is unconditional. -/
theorem asyncUpdateCache_allfail_counterexample :
    (asyncUpdateCache ["10"] (fun _ => none) [("10", demoInfo)] 1000).1
      = [("10", demoInfo)] ∧
    (asyncUpdateCache ["10"] (fun _ => none) [("10", demoInfo)] 1000).2
      ≠ .content (some { version := 1, timestamp := some 500,
                         data := some [("10", demoInfo)] }) ∧
    (asyncUpdateCache ["10"] (fun _ => none) [("10", demoInfo)] 1000).2
      = saveToCache [("10", demoInfo)] 1000 := by
  refine ⟨by decide, by decide, by decide⟩

/-- C1 amended. After a refresh over the configured projects, the in-memory
project map contains exactly the successful fetches merged over the previous
map's entries (an entry for a failed or unconfigured project is untouched,
and an all-fail refresh leaves the map unchanged); but the durable snapshot
is persisted unconditionally — even with zero successes — as a snapshot of
the merged map at the refresh time. -/
theorem asyncUpdateCache_merge_amended (creds : List String)
    (results : String → Option ProjectInfo) (mem : ProjectMap) (now : Nat)
    (pid : String) :
    (pid ∉ creds →
      jsGet (asyncUpdateCache creds results mem now).1 pid = jsGet mem pid) ∧
    (pid ∈ creds →
      jsGet (asyncUpdateCache creds results mem now).1 pid =
        match results pid with
        | some info => some info
        | none => jsGet mem pid) ∧
    ((∀ p ∈ creds, results p = none) →
      (asyncUpdateCache creds results mem now).1 = mem) ∧
    (asyncUpdateCache creds results mem now).2 =
      saveToCache (asyncUpdateCache creds results mem now).1 now := by
  exact ⟨fun h => loadAllProjectInfo_not_mem creds results mem pid h,
    fun h => loadAllProjectInfo_mem creds results mem pid h,
    fun h => loadAllProjectInfo_all_fail creds results mem h, rfl⟩

/-- A backend outcome oracle for concrete runs: project `"10"` succeeds,
everything else fails. -/
def resOracle : String → Option ProjectInfo :=
  fun p => if p = "10" then some demoInfo else none

/-- Witness for C1 amended: unconfigured project untouched, configured
success visible, all-fail run leaves the map unchanged. -/
theorem asyncUpdateCache_merge_amended_witness :
    ("20" : String) ∉ (["10"] : List String) ∧
    jsGet (asyncUpdateCache ["10"] resOracle [] 7).1 "20" = jsGet ([] : ProjectMap) "20" ∧
    jsGet (asyncUpdateCache ["10"] resOracle [] 7).1 "10" =
      (match resOracle "10" with
       | some info => some info
       | none => jsGet ([] : ProjectMap) "10") ∧
    (asyncUpdateCache ["10"] (fun _ => none) [("20", demoInfo)] 7).1 = [("20", demoInfo)] :=
  ⟨by decide,
   (asyncUpdateCache_merge_amended ["10"] resOracle [] 7 "20").1 (by decide),
   (asyncUpdateCache_merge_amended ["10"] resOracle [] 7 "10").2.1 (by decide),
   (asyncUpdateCache_merge_amended ["10"] (fun _ => none) [("20", demoInfo)] 7 "x").2.2.1
     (fun p _ => rfl)⟩

/-- C2 counterexample. There is no single-flight guard: a refresh request is
an unconditional invocation of `asyncUpdateCache`, whose body consults no
in-flight marker (the class has no such field), so a request arriving while a
run is pending performs its full backend-call sequence again — it is not a
no-op, and the overlapping runs together call project `"10"` twice. -/
theorem refresh_no_guard_counterexample :
    refreshProjectCalls ["10"] ≠ [] ∧
    List.count "10" (overlappingRefreshCalls ["10"]) = 2 ∧
    overlappingRefreshCalls ["10"] ≠ refreshProjectCalls ["10"] := by
  refine ⟨by decide, by decide, by decide⟩

/-- C2 amended. In the program as written at most one refresh is ever in
flight, but only because `initializeCache` is the sole trigger and invokes
`asyncUpdateCache` at most once per initialization; there is no concurrency
guard — were a second request issued while one is running, every configured
project would be fetched twice across the two overlapping runs. -/
theorem refresh_single_trigger_amended (ttl now : Nat) (st : Storage)
    (mem : ProjectMap) (creds : List String) (pid : String) :
    (initializeCache ttl now st mem).2 ≤ 1 ∧
    List.count pid (overlappingRefreshCalls creds) = 2 * List.count pid creds := by
  constructor
  · by_cases h : isCacheExpired ttl now st
    · simp [initializeCache, h]
    · by_cases h0 : 0 < (loadFromCache ttl now st).length
      · simp [initializeCache, h, h0]
      · simp [initializeCache, h, h0]
  · simp only [overlappingRefreshCalls, refreshProjectCalls, List.count_append]
    omega

/-- C6. Initialization with an absent or expired durable snapshot fires the
refresh asynchronously (exactly one invocation, not awaited) and returns with
the in-memory map as it was; with a fresh snapshot it populates the in-memory
map from the loaded entries and fires a refresh only when the loaded map is
empty. Concretely, with empty durable storage and TTL 360, initialization
returns with an empty map, one pending refresh, and an immediate
`yapi_list_projects` read reports no projects. The synchronous phase is a
function of the storage state alone — it consumes no backend results, so it
never waits on network I/O. -/
theorem initializeCache_spec (ttl now : Nat) (st : Storage) (mem : ProjectMap)
    (pid : String) :
    (isCacheExpired ttl now st = true → initializeCache ttl now st mem = (mem, 1)) ∧
    (isCacheExpired ttl now st = false → loadFromCache ttl now st = [] →
      initializeCache ttl now st mem = (mem, 1)) ∧
    (isCacheExpired ttl now st = false → loadFromCache ttl now st ≠ [] →
      (initializeCache ttl now st mem).2 = 0 ∧
      jsGet (initializeCache ttl now st mem).1 pid =
        match jsGet (loadFromCache ttl now st) pid with
        | some info => some info
        | none => jsGet mem pid) ∧
    (initializeCache 360 now .missing [] = ([], 1) ∧ listProjectsHandler [] = .noProjects) := by
  refine ⟨fun h => by simp [initializeCache, h], fun h h0 => by simp [initializeCache, h, h0],
    fun h h0 => ?_, by simp [initializeCache, isCacheExpired], by simp [listProjectsHandler]⟩
  have hlen : 0 < (loadFromCache ttl now st).length := List.length_pos.mpr h0
  have hres : initializeCache ttl now st mem
      = (jsFromEntries mem (loadFromCache ttl now st), 0) := by
    simp [initializeCache, h, hlen]
  rw [hres]
  refine ⟨rfl, ?_⟩
  rw [jsGet_jsFromEntries,
    lastEntry_eq_jsGet_of_nodup _ pid (loadFromCache_keys_nodup ttl now st)]
  rcases jsGet (loadFromCache ttl now st) pid with _ | w
  · rfl
  · rfl

/-- A fresh, populated durable snapshot used to instantiate the warm-start
branch on concrete inputs. -/
def warmStorage : Storage :=
  .content (some { version := 1, timestamp := some 1000, data := some [("10", demoInfo)] })

/-- Witness for C6: cold start from missing storage, and warm start from a
fresh snapshot. -/
theorem initializeCache_spec_witness :
    isCacheExpired 360 123 .missing = true ∧
    initializeCache 360 123 .missing [] = ([], 1) ∧
    isCacheExpired 360 2000 warmStorage = false ∧
    loadFromCache 360 2000 warmStorage ≠ [] ∧
    (initializeCache 360 2000 warmStorage []).2 = 0 ∧
    jsGet (initializeCache 360 2000 warmStorage []).1 "10" =
      (match jsGet (loadFromCache 360 2000 warmStorage) "10" with
       | some info => some info
       | none => jsGet ([] : ProjectMap) "10") :=
  ⟨by decide,
   (initializeCache_spec 360 123 .missing [] "10").1 (by decide),
   by decide, by decide,
   ((initializeCache_spec 360 2000 warmStorage [] "10").2.2.1 (by decide) (by decide)).1,
   ((initializeCache_spec 360 2000 warmStorage [] "10").2.2.1 (by decide) (by decide)).2⟩

/-- C7 counterexample. A tool call requesting a projectId absent from the
in-memory maps does not perform exactly one single-entity fetch before
answering: the `yapi_get_categories` handler answers "project not found"
directly from the map and performs zero backend calls. -/
theorem getCategories_no_fallback_counterexample :
    getCategoriesHandler [] [] "20" = (.projectNotFound "20", []) ∧
    ¬ ((getCategoriesHandler [] [] "20").2.length = 1) := by
  refine ⟨by decide, by decide⟩

/-- C7 amended. A tool call requesting a projectId absent from the in-memory
project map — or one whose category list is absent or empty — is answered
with a descriptive not-found message and no backend call at all: there is no
on-demand single-entity fallback in the `yapi_get_categories` handler. -/
theorem getCategories_miss_amended (mem : ProjectMap) (cats : CategoryMap)
    (pid : String) (info : ProjectInfo) :
    (jsGet mem pid = none →
      getCategoriesHandler mem cats pid = (.projectNotFound pid, [])) ∧
    (jsGet mem pid = some info → jsGet cats pid = none →
      getCategoriesHandler mem cats pid = (.noCategories info.name pid, [])) ∧
    (jsGet mem pid = some info → jsGet cats pid = some [] →
      getCategoriesHandler mem cats pid = (.noCategories info.name pid, [])) := by
  refine ⟨fun h => by simp [getCategoriesHandler, h],
    fun h h2 => by simp [getCategoriesHandler, h, h2],
    fun h h2 => by simp [getCategoriesHandler, h, h2]⟩

/-- Witness for C7 amended: an absent project, and a cached project with no
category list. -/
theorem getCategories_miss_amended_witness :
    jsGet ([] : ProjectMap) "20" = none ∧
    getCategoriesHandler [] [] "20" = (.projectNotFound "20", []) ∧
    jsGet [("10", demoInfo)] "10" = some demoInfo ∧
    getCategoriesHandler [("10", demoInfo)] [] "10" = (.noCategories demoInfo.name "10", []) :=
  ⟨rfl,
   (getCategories_miss_amended [] [] "20" demoInfo).1 rfl,
   by decide,
   (getCategories_miss_amended [("10", demoInfo)] [] "10" demoInfo).2.1 (by decide) rfl⟩

/-- C8. `parseCredentials` produces exactly one table entry per valid
comma-separated segment (one that has a colon and a non-empty projectId) with
last-write-wins semantics: the lookup of any projectId is the token of the
last valid segment carrying it, keys are unique, a projectId is present
exactly when some valid segment carries it, and a malformed segment is
skipped without disturbing the parse of the segments around it. -/
theorem parseCredentials_spec (raw pid : String) (xs ys : List String) (bad : String)
    (hbad : parseCredSegment bad = none) :
    jsGet (parseCredentials raw) pid
      = lastValidToken ((splitCommas raw.data).map String.mk) pid ∧
    ((parseCredentials raw).map Prod.fst).Nodup ∧
    (pid ∈ (parseCredentials raw).map Prod.fst
      ↔ (lastValidToken ((splitCommas raw.data).map String.mk) pid).isSome) ∧
    parseCredSegments (xs ++ bad :: ys) = parseCredSegments (xs ++ ys) := by
  have h1 : jsGet (parseCredentials raw) pid
      = lastValidToken ((splitCommas raw.data).map String.mk) pid := by
    rw [parseCredentials, parseCredSegments_eq_foldl, credFold_jsGet]
    rcases lastValidToken ((splitCommas raw.data).map String.mk) pid with _ | t
    · rfl
    · rfl
  refine ⟨h1, ?_, ?_, ?_⟩
  · rw [parseCredentials, parseCredSegments_eq_foldl]
    exact credFold_keys_nodup _ [] (by simp)
  · rw [← jsGet_isSome_iff_mem, h1]
  · rw [parseCredSegments_eq_foldl, parseCredSegments_eq_foldl,
      List.foldl_append, List.foldl_append, List.foldl_cons]
    simp [credStep, hbad]

/-- Witness for C8 on `"10:abc,20:def,10:zzz"` with malformed segment `"bad"`. -/
theorem parseCredentials_spec_witness :
    parseCredSegment "bad" = none ∧
    jsGet (parseCredentials "10:abc,20:def,10:zzz") "10"
      = lastValidToken ((splitCommas ("10:abc,20:def,10:zzz" : String).data).map String.mk)
          "10" ∧
    parseCredSegments (["10:abc"] ++ "bad" :: ["20:def"])
      = parseCredSegments (["10:abc"] ++ ["20:def"]) :=
  ⟨by decide,
   (parseCredentials_spec "10:abc,20:def,10:zzz" "10" ["10:abc"] ["20:def"] "bad"
     (by decide)).1,
   (parseCredentials_spec "10:abc,20:def,10:zzz" "10" ["10:abc"] ["20:def"] "bad"
     (by decide)).2.2.2⟩

end YapiMcp
